import Mathlib

/-!
Service-Hub application lifecycle orchestrator: a shallow embedding.

This file embeds `application/managers/applications.py` (class
`ApplicationManager`) in Lean 4 and proves properties of its four lifecycle
operations `install`, `upgrade`, `update_user_inputs` and `terminate`.

External collaborators are modelled as parameters:
* the Helm chart backend (`HelmManager.install_chart`, `update_release`,
  `uninstall_release`) is modelled by an oracle `HelmOracle` deciding, per
  release name, whether a call succeeds or raises `HelmException`;
* template rendering (`render_template` followed by `load_template`) is
  modelled by an explicit function argument `render` from an input map to a
  parsed manifest schema;
* the persistence store (`self.db`) is modelled by trace events
  (`dbCreate`, `dbSave`, `dbDelete`) and by the record value returned.

Every externally observable action of a lifecycle call (a chart-backend call
or a database write) is recorded, in call order, in a `List Event` trace.
Input values and chart values are opaque payloads that the orchestrator only
passes through or compares for equality; they are carried as `String`s.
-/

/-- Opaque user-input / chart value payload (compared only for equality). -/
abbrev Value := String

/-- A chart `values` map as passed to the chart backend. -/
abbrev Values := List (String × Value)

/-- An input map (`inputs` / `application.user_inputs`), a Python dict. -/
abbrev InputsMap := List (String × Value)

/-- One chart declaration of a rendered manifest: release name, chart
reference, version and values (`application/schemas/templates.py`, not under
`src/`; shape as described by the spec's Chart Declaration data model). -/
structure ChartSchema where
  name : String
  chart : String
  version : String
  values : Values
deriving DecidableEq, Repr

/-- One input descriptor of a template's input schema: name, optional default
(`none` models the `default` field not being set, i.e. absent from
`__fields_set__`), and the immutable flag. -/
structure InputSpec where
  name : String
  default : Option Value
  immutable : Bool
deriving DecidableEq, Repr

/-- Modelled from the spec: a parsed manifest / template schema
(`load_template`'s result, not under `src/`): an ordered sequence of chart
declarations plus the template's input descriptors; the release-name →
declaration mapping and the name → input mapping are derived below. -/
structure ManifestSchema where
  name : String
  charts : List ChartSchema
  inputs : List InputSpec
deriving DecidableEq, Repr

/-- Modelled from the spec: `chart_mapping`, the release-name → declaration
mapping derived from the ordered chart declarations (release names are unique
within a manifest, so first-match lookup agrees with the Python dict). -/
def ManifestSchema.chartMapping (m : ManifestSchema) : List (String × ChartSchema) :=
  m.charts.map (fun c => (c.name, c))

/-- Modelled from the spec: `inputs_mapping`, the name → input-descriptor
mapping derived from the input schema. -/
def ManifestSchema.inputsMapping (m : ManifestSchema) : List (String × InputSpec) :=
  m.inputs.map (fun i => (i.name, i))

/-- The persisted Application record fields that the lifecycle operations
read or write (`manifest` is kept in parsed form; parsing is external). -/
structure ApplicationRec where
  manifest : ManifestSchema
  userInputs : InputsMap
  templateId : Nat
deriving DecidableEq, Repr

/-- A template revision: identity, parsed input schema of its template text. -/
structure TemplateRev where
  id : Nat
  inputs : List InputSpec
deriving DecidableEq, Repr

/-- Externally observable actions of a lifecycle call, in call order.
`uninstallRelease`'s flag is `none` when the call site does not pass
`dry_run` (install rollback, upgrade rollback, terminate) and `some d` when
it does (upgrade's remove loop). -/
inductive Event where
  | installChart (releaseName chartName version : String) (values : Values) (dryRun : Bool)
  | updateRelease (releaseName chartName : String) (values : Values) (dryRun : Bool)
  | uninstallRelease (releaseName : String) (dryRun : Option Bool)
  | dbCreate
  | dbSave
  | dbDelete
deriving DecidableEq, Repr

/-- Holds (`true`) exactly on persistence-store events. -/
def Event.isDb : Event → Bool
  | .dbCreate => true
  | .dbSave => true
  | .dbDelete => true
  | _ => false

/-- Holds (`true`) exactly on chart-backend calls carrying the dry-run flag set:
db events and non-dry-run chart calls map to `false`. -/
def Event.isDryRunCall : Event → Bool
  | .installChart _ _ _ _ d => d
  | .updateRelease _ _ _ d => d
  | .uninstallRelease _ d => d == some true
  | _ => false

/-- Holds (`true`) exactly on `uninstallRelease` events. -/
def Event.isUninstall : Event → Bool
  | .uninstallRelease _ _ => true
  | _ => false

/-- Holds (`true`) exactly on `updateRelease` events. -/
def Event.isUpdate : Event → Bool
  | .updateRelease _ _ _ _ => true
  | _ => false

/-- Holds (`true`) exactly on `installChart` events. -/
def Event.isInstall : Event → Bool
  | .installChart _ _ _ _ _ => true
  | _ => false

/-- Errors a lifecycle call can raise: `helm` models `HelmException` from the
chart backend; `invalidKeySet` and `immutableViolation` model the two
`InvalidUserInputsException`s of `update_user_inputs` (the latter carries the
violating input names, in template-schema order); `validationFailed` models a
failure of the external `validate_inputs`; `keyError` models a Python
`KeyError` on a mapping subscript. -/
inductive AppError where
  | helm
  | invalidKeySet
  | immutableViolation (names : List String)
  | validationFailed
  | keyError
deriving DecidableEq, Repr

/-- Chart-backend behavior oracle: per release name, whether
`install_chart` / `update_release` / `uninstall_release` succeeds (`false`
models the call raising `HelmException`). The call itself is always issued
(recorded in the trace) before its outcome is observed. -/
structure HelmOracle where
  installOk : String → Bool
  updateOk : String → Bool
  uninstallOk : String → Bool

/-- Models `HelmManager.install_chart`: one install call, recorded, then its
outcome. -/
def helmInstall (o : HelmOracle) (c : ChartSchema) (dryRun : Bool) :
    List Event × Except AppError Unit :=
  ([Event.installChart c.name c.chart c.version c.values dryRun],
   if o.installOk c.name then Except.ok () else Except.error AppError.helm)

/-- Models `HelmManager.update_release`: one update call (no version), recorded,
then its outcome. -/
def helmUpdate (o : HelmOracle) (releaseName : String) (c : ChartSchema) (dryRun : Bool) :
    List Event × Except AppError Unit :=
  ([Event.updateRelease releaseName c.chart c.values dryRun],
   if o.updateOk releaseName then Except.ok () else Except.error AppError.helm)

/-- Models `HelmManager.uninstall_release`: one uninstall call, recorded, then its
outcome. -/
def helmUninstall (o : HelmOracle) (releaseName : String) (dryRun : Option Bool) :
    List Event × Except AppError Unit :=
  ([Event.uninstallRelease releaseName dryRun],
   if o.uninstallOk releaseName then Except.ok () else Except.error AppError.helm)

/-- The rollback loop of `install` / `upgrade`: `uninstall_release` for each
chart in the given (already reversed) list; a `HelmException` from a rollback
call is logged and swallowed (`except HelmException: ... pass`), so every
chart in the list is attempted regardless of earlier outcomes. -/
def rollbackReleases (o : HelmOracle) : List ChartSchema → List Event
  | [] => []
  | c :: rest =>
    let (ev, res) := helmUninstall o c.name none
    match res with
    | Except.ok _ => ev ++ rollbackReleases o rest
    | Except.error _ => ev ++ rollbackReleases o rest

namespace ApplicationManager

/-- The `for index, chart in enumerate(manifest_schema.charts)` loop of
`install`, lines 50-82: install each chart in manifest order, accumulating
the result-map keys; on `HelmException`, if not dry-run, uninstall the
already-installed prefix (`reversed(manifest_schema.charts[:index])`,
carried here as the accumulator `installed`), then re-raise. -/
def installCharts (o : HelmOracle) (dryRun : Bool) (installed : List ChartSchema) :
    List ChartSchema → List Event × Except AppError (List String)
  | [] => ([], Except.ok [])
  | c :: rest =>
    let (ev, res) := helmInstall o c dryRun
    match res with
    | Except.error _ =>
      if dryRun then (ev, Except.error AppError.helm)
      else (ev ++ rollbackReleases o installed.reverse, Except.error AppError.helm)
    | Except.ok _ =>
      let (tr, r) := installCharts o dryRun (installed ++ [c]) rest
      (ev ++ tr, (fun names => c.name :: names) <$> r)

/-- Embeds `ApplicationManager.install`, lines 40-102, after the external
validation/render/parse steps produced the manifest's chart list: run the
install loop; on success and not dry-run, create the Application record
(`self.db.create`). Returns whether a record was created and the result-map
keys in call order. -/
def install (o : HelmOracle) (charts : List ChartSchema) (dryRun : Bool) :
    List Event × Except AppError (Bool × List String) :=
  match installCharts o dryRun [] charts with
  | (tr, Except.error e) => (tr, Except.error e)
  | (tr, Except.ok results) =>
    if dryRun then (tr, Except.ok (false, results))
    else (tr ++ [Event.dbCreate], Except.ok (true, results))

end ApplicationManager

/-- The `installChart` event a chart's install call emits. -/
def installEv (dryRun : Bool) (c : ChartSchema) : Event :=
  Event.installChart c.name c.chart c.version c.values dryRun

/-- The `uninstallRelease` event a rollback call emits (no dry-run flag). -/
def uninstallEv (c : ChartSchema) : Event :=
  Event.uninstallRelease c.name none

theorem rollbackReleases_eq_map (o : HelmOracle) (cs : List ChartSchema) :
    rollbackReleases o cs = cs.map uninstallEv := by
  induction cs with
  | nil => rfl
  | cons c rest ih =>
    simp only [rollbackReleases, helmUninstall]
    split <;> simp [ih, uninstallEv]

theorem installCharts_fail (o : HelmOracle) (installed : List ChartSchema)
    (pre post : List ChartSchema) (cfail : ChartSchema)
    (hsucc : ∀ c ∈ pre, o.installOk c.name = true)
    (hfail : o.installOk cfail.name = false) :
    ApplicationManager.installCharts o false installed (pre ++ cfail :: post) =
      ((pre ++ [cfail]).map (installEv false) ++ (installed ++ pre).reverse.map uninstallEv,
       Except.error AppError.helm) := by
  induction pre generalizing installed with
  | nil =>
    simp only [List.nil_append, ApplicationManager.installCharts, helmInstall, hfail,
      if_false, Bool.false_eq_true]
    simp [rollbackReleases_eq_map, installEv]
  | cons c pre ih =>
    have hc : o.installOk c.name = true := hsucc c (by simp)
    simp only [List.cons_append, ApplicationManager.installCharts, helmInstall, hc, if_true,
      List.append_eq]
    rw [ih (installed ++ [c]) (fun d hd => hsucc d (by simp [hd]))]
    simp [installEv]

theorem installCharts_ok (o : HelmOracle) (installed : List ChartSchema)
    (dryRun : Bool) (cs : List ChartSchema)
    (hsucc : ∀ c ∈ cs, o.installOk c.name = true) :
    ApplicationManager.installCharts o dryRun installed cs =
      (cs.map (installEv dryRun), Except.ok (cs.map ChartSchema.name)) := by
  induction cs generalizing installed with
  | nil => rfl
  | cons c rest ih =>
    have hc : o.installOk c.name = true := hsucc c (by simp)
    simp only [ApplicationManager.installCharts, helmInstall, hc, if_true]
    rw [ih (installed ++ [c]) (fun d hd => hsucc d (by simp [hd]))]
    simp [installEv]

/-- C1: in a non-dry-run `install` of a manifest whose chart sequence is
`pre ++ cfail :: post` — every chart of `pre` installs successfully (so the
failing call is the `pre.length + 1`-st, i.e. k-th with k-1 = `pre.length`)
and `cfail`'s install raises — the trace is exactly: one install call per
chart of `pre ++ [cfail]` in manifest order, followed by one uninstall call
per chart of `pre` in strictly reverse install order (for every uninstall
oracle, so each rollback failure is swallowed and the remaining rollback
calls still happen), the original `HelmException` is re-raised, and no
Application record is created (`dbCreate` is not in the trace). -/
theorem install_rollback_on_failure (o : HelmOracle)
    (pre post : List ChartSchema) (cfail : ChartSchema)
    (hsucc : ∀ c ∈ pre, o.installOk c.name = true)
    (hfail : o.installOk cfail.name = false) :
    ApplicationManager.install o (pre ++ cfail :: post) false =
      ((pre ++ [cfail]).map (installEv false) ++ pre.reverse.map uninstallEv,
       Except.error AppError.helm) ∧
    Event.dbCreate ∉ (ApplicationManager.install o (pre ++ cfail :: post) false).1 := by
  have h := installCharts_fail o [] pre post cfail hsucc hfail
  rw [List.nil_append] at h
  constructor
  · simp only [ApplicationManager.install, h]
  · simp only [ApplicationManager.install, h]
    intro hmem
    rcases List.mem_append.mp hmem with hmem | hmem
    · rcases List.mem_map.mp hmem with ⟨c, _, hc⟩
      simp [installEv] at hc
    · rcases List.mem_map.mp hmem with ⟨c, _, hc⟩
      simp [uninstallEv] at hc

/-- Witness for C1: a concrete three-chart manifest whose second install
fails; the first chart (and only it) is rolled back. -/
theorem install_rollback_on_failure_witness :
    ApplicationManager.install
      ⟨fun n => n == "frontend", fun _ => true, fun _ => false⟩
      [⟨"frontend", "repo/frontend", "1.0.0", []⟩,
       ⟨"backend", "repo/backend", "2.0.0", []⟩,
       ⟨"db", "repo/db", "3.0.0", []⟩] false =
      ([Event.installChart "frontend" "repo/frontend" "1.0.0" [] false,
        Event.installChart "backend" "repo/backend" "2.0.0" [] false,
        Event.uninstallRelease "frontend" none],
       Except.error AppError.helm) := by
  have h := install_rollback_on_failure
    ⟨fun n => n == "frontend", fun _ => true, fun _ => false⟩
    [⟨"frontend", "repo/frontend", "1.0.0", []⟩]
    [⟨"db", "repo/db", "3.0.0", []⟩]
    ⟨"backend", "repo/backend", "2.0.0", []⟩
    (by intro c hc; simp at hc; subst hc; rfl)
    (by rfl)
  simpa [installEv, uninstallEv] using h.1

theorem installCharts_fail_dry (o : HelmOracle) (installed : List ChartSchema)
    (pre post : List ChartSchema) (cfail : ChartSchema)
    (hsucc : ∀ c ∈ pre, o.installOk c.name = true)
    (hfail : o.installOk cfail.name = false) :
    ApplicationManager.installCharts o true installed (pre ++ cfail :: post) =
      ((pre ++ [cfail]).map (installEv true), Except.error AppError.helm) := by
  induction pre generalizing installed with
  | nil =>
    simp only [List.nil_append, ApplicationManager.installCharts, helmInstall, hfail,
      if_false, Bool.false_eq_true]
    simp [installEv]
  | cons c pre ih =>
    have hc : o.installOk c.name = true := hsucc c (by simp)
    simp only [List.cons_append, ApplicationManager.installCharts, helmInstall, hc, if_true,
      List.append_eq]
    rw [ih (installed ++ [c]) (fun d hd => hsucc d (by simp [hd]))]
    simp [installEv]

/-- Counterexample for C3: a dry-run two-chart install whose second install
fails; contrary to the claim, the already-installed first chart receives no
compensating uninstall call — the rollback loop is guarded by
`if not dry_run` — so the trace of the failed dry-run contains no uninstall
event at all (the failure is still re-raised). -/
theorem install_dry_run_counterexample :
    (ApplicationManager.install
      ⟨fun n => n == "frontend", fun _ => true, fun _ => true⟩
      [⟨"frontend", "repo/frontend", "1.0.0", []⟩,
       ⟨"backend", "repo/backend", "2.0.0", []⟩] true).2 = Except.error AppError.helm ∧
    ((ApplicationManager.install
      ⟨fun n => n == "frontend", fun _ => true, fun _ => true⟩
      [⟨"frontend", "repo/frontend", "1.0.0", []⟩,
       ⟨"backend", "repo/backend", "2.0.0", []⟩] true).1.filter Event.isUninstall) = [] := by
  constructor <;> rfl

/-- C3 amended: in a dry-run `install` whose chart sequence is
`pre ++ cfail :: post` with every chart of `pre` succeeding and `cfail`'s
install raising, the rollback loop is skipped entirely (`if not dry_run`):
the trace is exactly the install calls for `pre ++ [cfail]`, with no
uninstall call and no database event, and the original failure is
re-raised. -/
theorem install_dry_run_no_rollback (o : HelmOracle)
    (pre post : List ChartSchema) (cfail : ChartSchema)
    (hsucc : ∀ c ∈ pre, o.installOk c.name = true)
    (hfail : o.installOk cfail.name = false) :
    ApplicationManager.install o (pre ++ cfail :: post) true =
      ((pre ++ [cfail]).map (installEv true), Except.error AppError.helm) ∧
    ((pre ++ [cfail]).map (installEv true)).filter Event.isUninstall = [] ∧
    ((pre ++ [cfail]).map (installEv true)).filter Event.isDb = [] := by
  refine ⟨?_, ?_, ?_⟩
  · simp only [ApplicationManager.install, installCharts_fail_dry o [] pre post cfail hsucc hfail]
  · rw [List.filter_eq_nil_iff]
    intro e he
    rcases List.mem_map.mp he with ⟨c, _, hc⟩
    subst hc
    simp [installEv, Event.isUninstall]
  · rw [List.filter_eq_nil_iff]
    intro e he
    rcases List.mem_map.mp he with ⟨c, _, hc⟩
    subst hc
    simp [installEv, Event.isDb]

/-- Witness for C3 amended: the concrete dry-run failure above, with its
exact trace. -/
theorem install_dry_run_no_rollback_witness :
    ApplicationManager.install
      ⟨fun n => n == "frontend", fun _ => true, fun _ => true⟩
      [⟨"frontend", "repo/frontend", "1.0.0", []⟩,
       ⟨"backend", "repo/backend", "2.0.0", []⟩] true =
      ([Event.installChart "frontend" "repo/frontend" "1.0.0" [] true,
        Event.installChart "backend" "repo/backend" "2.0.0" [] true],
       Except.error AppError.helm) := by
  have h := install_dry_run_no_rollback
    ⟨fun n => n == "frontend", fun _ => true, fun _ => true⟩
    [⟨"frontend", "repo/frontend", "1.0.0", []⟩] []
    ⟨"backend", "repo/backend", "2.0.0", []⟩
    (by intro c hc; simp at hc; subst hc; rfl)
    (by rfl)
  simpa [installEv] using h.1

/-- The keys of a release-name → declaration mapping (`dict.keys()`). -/
def keysOf (m : List (String × ChartSchema)) : List String :=
  m.map Prod.fst

/-- The keys of an input map (`dict.keys()`). -/
def keysOfInputs (m : InputsMap) : List String :=
  m.map Prod.fst

/-- Embeds `upgrade` line 119: `new.chart_mapping.keys() - old.chart_mapping.keys()`
(set difference of dict key views; one admissible iteration order). -/
def chartsToInstall (oldKeys newKeys : List String) : List String :=
  newKeys.filter (fun r => !(decide (r ∈ oldKeys)))

/-- Embeds `upgrade` line 120: `old.chart_mapping.keys() - new.chart_mapping.keys()`. -/
def releasesToRemove (oldKeys newKeys : List String) : List String :=
  oldKeys.filter (fun r => !(decide (r ∈ newKeys)))

/-- Embeds `upgrade` line 121: `old.chart_mapping.keys() & new.chart_mapping.keys()`
(set intersection of dict key views; one admissible iteration order). -/
def releasesToUpdate (oldKeys newKeys : List String) : List String :=
  oldKeys.filter (fun r => decide (r ∈ newKeys))

/-- Embeds `upgrade` lines 110-112: `{input.name: input.default for input in
new_template_schema.inputs if 'default' in input.__fields_set__}` — the
defaults dict of the new template's input schema. -/
def inputDefaults (specs : List InputSpec) : InputsMap :=
  specs.filterMap (fun i => i.default.map (fun d => (i.name, d)))

/-- Python dict merge `{**base, **override}`: keys of `override` win. The
association list below has exactly that lookup semantics (`override` is
consulted first; entries of `base` shadowed by `override` are dropped). -/
def dictMerge (base override : InputsMap) : InputsMap :=
  override ++ base.filter (fun p => (override.lookup p.1).isNone)

/-- Embeds `upgrade` line 113: `user_inputs = {**input_defaults,
**application.user_inputs}` — existing user inputs override the new
template's defaults. -/
def upgradeMergedInputs (template : TemplateRev) (app : ApplicationRec) : InputsMap :=
  dictMerge (inputDefaults template.inputs) app.userInputs

theorem lookup_append_or (l₁ l₂ : InputsMap) (k : String) :
    (l₁ ++ l₂).lookup k = (l₁.lookup k).or (l₂.lookup k) := by
  induction l₁ with
  | nil => simp
  | cons p l₁ ih =>
    obtain ⟨k', v⟩ := p
    simp only [List.cons_append, List.lookup_cons]
    cases hk : (k == k') <;> simp [ih]

theorem lookup_filter_keyNone (l override : InputsMap) (k : String)
    (h : override.lookup k = none) :
    (l.filter (fun p => (override.lookup p.1).isNone)).lookup k = l.lookup k := by
  induction l with
  | nil => rfl
  | cons p l ih =>
    obtain ⟨k', v⟩ := p
    by_cases hk : k = k'
    · subst hk
      simp [List.filter_cons, h, List.lookup_cons]
    · have hbeq : (k == k') = false := by simp [hk]
      simp only [List.filter_cons]
      by_cases hkeep : (override.lookup k').isNone
      · simp [hkeep, List.lookup_cons, hbeq, ih]
      · simp [hkeep, List.lookup_cons, hbeq, ih]

theorem dictMerge_lookup (base override : InputsMap) (k : String) :
    (dictMerge base override).lookup k = (override.lookup k).or (base.lookup k) := by
  rw [dictMerge, lookup_append_or]
  cases h : override.lookup k with
  | some v => rfl
  | none => simp [lookup_filter_keyNone base override k h]

/-- C5: the merged input map `{**input_defaults, **application.user_inputs}`
used by `upgrade` to render the new template gives precedence to existing
user inputs: an input name having a default in the new template's schema and
a value in the application's existing inputs resolves to the existing value,
and one having only the default resolves to that default. -/
theorem upgrade_merge_precedence (template : TemplateRev) (app : ApplicationRec)
    (n : String) (d : Value)
    (hd : (inputDefaults template.inputs).lookup n = some d) :
    (∀ v, app.userInputs.lookup n = some v →
        (upgradeMergedInputs template app).lookup n = some v) ∧
    (app.userInputs.lookup n = none →
        (upgradeMergedInputs template app).lookup n = some d) := by
  constructor
  · intro v hv
    rw [upgradeMergedInputs, dictMerge_lookup, hv]
    rfl
  · intro hv
    rw [upgradeMergedInputs, dictMerge_lookup, hv, hd]
    rfl

/-- Witness for C5: a template with defaults `region ↦ us-east`,
`replicas ↦ 2` and an application whose only stored input is
`region ↦ eu-west`: the merge keeps `eu-west` and adds the default `2`. -/
theorem upgrade_merge_precedence_witness :
    (upgradeMergedInputs
        ⟨7, [⟨"region", some "us-east", true⟩, ⟨"replicas", some "2", false⟩]⟩
        ⟨⟨"app", [], []⟩, [("region", "eu-west")], 3⟩).lookup "region" = some "eu-west" ∧
    (upgradeMergedInputs
        ⟨7, [⟨"region", some "us-east", true⟩, ⟨"replicas", some "2", false⟩]⟩
        ⟨⟨"app", [], []⟩, [("region", "eu-west")], 3⟩).lookup "replicas" = some "2" := by
  have h1 := upgrade_merge_precedence
    ⟨7, [⟨"region", some "us-east", true⟩, ⟨"replicas", some "2", false⟩]⟩
    ⟨⟨"app", [], []⟩, [("region", "eu-west")], 3⟩ "region" "us-east" (by rfl)
  have h2 := upgrade_merge_precedence
    ⟨7, [⟨"region", some "us-east", true⟩, ⟨"replicas", some "2", false⟩]⟩
    ⟨⟨"app", [], []⟩, [("region", "eu-west")], 3⟩ "replicas" "2" (by rfl)
  exact ⟨h1.1 "eu-west" (by rfl), h2.2 (by rfl)⟩

/-- C4: the Diff Set computed by `upgrade` from the old and new chart-mapping
key sets satisfies: `to_install` is exactly the new-minus-old keys,
`to_remove` exactly old-minus-new, `to_update` exactly the intersection; the
three sets are pairwise disjoint and together they cover exactly the union of
the two key sets. -/
theorem diff_sets_partition (oldKeys newKeys : List String) :
    (∀ r, r ∈ chartsToInstall oldKeys newKeys ↔ (r ∈ newKeys ∧ ¬ r ∈ oldKeys)) ∧
    (∀ r, r ∈ releasesToRemove oldKeys newKeys ↔ (r ∈ oldKeys ∧ ¬ r ∈ newKeys)) ∧
    (∀ r, r ∈ releasesToUpdate oldKeys newKeys ↔ (r ∈ oldKeys ∧ r ∈ newKeys)) ∧
    (∀ r, ¬ (r ∈ chartsToInstall oldKeys newKeys ∧ r ∈ releasesToRemove oldKeys newKeys)) ∧
    (∀ r, ¬ (r ∈ chartsToInstall oldKeys newKeys ∧ r ∈ releasesToUpdate oldKeys newKeys)) ∧
    (∀ r, ¬ (r ∈ releasesToRemove oldKeys newKeys ∧ r ∈ releasesToUpdate oldKeys newKeys)) ∧
    (∀ r, (r ∈ chartsToInstall oldKeys newKeys ∨ r ∈ releasesToRemove oldKeys newKeys ∨
           r ∈ releasesToUpdate oldKeys newKeys) ↔ (r ∈ oldKeys ∨ r ∈ newKeys)) := by
  refine ⟨?_, ?_, ?_, ?_, ?_, ?_, ?_⟩ <;> intro r <;>
    simp only [chartsToInstall, releasesToRemove, releasesToUpdate, List.mem_filter,
      Bool.not_eq_true', decide_eq_true_iff, decide_eq_false_iff_not, Bool.not_eq_eq_eq_not,
      Bool.not_true] <;> tauto

/-- Witness for C4: upgrading from charts `{a, b}` to `{b, c}` yields
`to_install = {c}`, `to_remove = {a}`, `to_update = {b}`. -/
theorem diff_sets_partition_witness :
    "c" ∈ chartsToInstall ["a", "b"] ["b", "c"] ∧
    "a" ∈ releasesToRemove ["a", "b"] ["b", "c"] ∧
    "b" ∈ releasesToUpdate ["a", "b"] ["b", "c"] := by
  have h := diff_sets_partition ["a", "b"] ["b", "c"]
  exact ⟨(h.1 "c").mpr (by simp), (h.2.1 "a").mpr (by simp),
    (h.2.2.1 "b").mpr (by simp)⟩

namespace ApplicationManager

/-- The result payload of a successful `upgrade`, lines 199-203: result-map
keys of `install_results` and `update_results` plus
`list(releases_to_remove)`. -/
structure UpgradeResult where
  installedReleases : List String
  updatedReleases : List String
  uninstalledReleases : List String
deriving DecidableEq, Repr

/-- Embeds `upgrade` lines 123-160: the `charts_to_install` loop. Each release name
is subscripted in the new chart mapping (a missing key raises `KeyError`,
line 126, outside the `try`), installed, and appended to `installed_charts`;
on `HelmException`, if not dry-run, the charts installed so far within this
upgrade are uninstalled in reverse order (rollback failures swallowed), and
the error is re-raised. -/
def upgradeInstallLoop (o : HelmOracle) (mapping : List (String × ChartSchema))
    (dryRun : Bool) (installed : List ChartSchema) :
    List String → List Event × Except AppError (List String)
  | [] => ([], Except.ok [])
  | r :: rest =>
    match mapping.lookup r with
    | none => ([], Except.error AppError.keyError)
    | some c =>
      let (ev, res) := helmInstall o c dryRun
      match res with
      | Except.error _ =>
        if dryRun then (ev, Except.error AppError.helm)
        else (ev ++ rollbackReleases o installed.reverse, Except.error AppError.helm)
      | Except.ok _ =>
        let (tr, rres) := upgradeInstallLoop o mapping dryRun (installed ++ [c]) rest
        (ev ++ tr, (fun names => c.name :: names) <$> rres)

/-- Embeds `upgrade` lines 162-173: the `releases_to_update` loop. The release's
chart is looked up in the new mapping (`KeyError` if absent, line 164) and
`update_release` is awaited with no surrounding `try`, so a `HelmException`
from an update propagates out of `upgrade` immediately. -/
def upgradeUpdateLoop (o : HelmOracle) (mapping : List (String × ChartSchema))
    (dryRun : Bool) : List String → List Event × Except AppError (List String)
  | [] => ([], Except.ok [])
  | r :: rest =>
    match mapping.lookup r with
    | none => ([], Except.error AppError.keyError)
    | some c =>
      let (ev, res) := helmUpdate o r c dryRun
      match res with
      | Except.error e => (ev, Except.error e)
      | Except.ok _ =>
        let (tr, rres) := upgradeUpdateLoop o mapping dryRun rest
        (ev ++ tr, (fun names => r :: names) <$> rres)

/-- Embeds `upgrade` lines 175-191: the `releases_to_remove` loop. The release's
chart is looked up in the old mapping (`KeyError` if absent, line 176);
`uninstall_release` is called with the dry-run flag, and a `HelmException`
from it is logged (when not dry-run) and swallowed (`pass`), so every
release in the list is attempted. -/
def upgradeRemoveLoop (o : HelmOracle) (mapping : List (String × ChartSchema))
    (dryRun : Bool) : List String → List Event × Except AppError Unit
  | [] => ([], Except.ok ())
  | r :: rest =>
    match mapping.lookup r with
    | none => ([], Except.error AppError.keyError)
    | some c =>
      let (ev, res) := helmUninstall o c.name (some dryRun)
      match res with
      | Except.ok _ =>
        let (tr, rres) := upgradeRemoveLoop o mapping dryRun rest
        (ev ++ tr, rres)
      | Except.error _ =>
        let (tr, rres) := upgradeRemoveLoop o mapping dryRun rest
        (ev ++ tr, rres)

/-- Embeds `ApplicationManager.upgrade`, lines 104-203: merge the application's
user inputs over the new template's defaults, render the new template
(external `render`), diff the old and new chart mappings, run the three
loops, and, on success and not dry-run, overwrite the record's manifest,
template reference and user inputs and save it (`self.db.save`). -/
def upgrade (o : HelmOracle) (app : ApplicationRec) (template : TemplateRev)
    (render : InputsMap → ManifestSchema) (dryRun : Bool) :
    List Event × Except AppError (ApplicationRec × UpgradeResult) :=
  let userInputs := upgradeMergedInputs template app
  let newSchema := render userInputs
  let oldSchema := app.manifest
  let oldKeys := keysOf oldSchema.chartMapping
  let newKeys := keysOf newSchema.chartMapping
  match upgradeInstallLoop o newSchema.chartMapping dryRun []
      (chartsToInstall oldKeys newKeys) with
  | (tr₁, Except.error e) => (tr₁, Except.error e)
  | (tr₁, Except.ok installResults) =>
    match upgradeUpdateLoop o newSchema.chartMapping dryRun
        (releasesToUpdate oldKeys newKeys) with
    | (tr₂, Except.error e) => (tr₁ ++ tr₂, Except.error e)
    | (tr₂, Except.ok updateResults) =>
      match upgradeRemoveLoop o oldSchema.chartMapping dryRun
          (releasesToRemove oldKeys newKeys) with
      | (tr₃, Except.error e) => (tr₁ ++ tr₂ ++ tr₃, Except.error e)
      | (tr₃, Except.ok _) =>
        let result : UpgradeResult :=
          ⟨installResults, updateResults, releasesToRemove oldKeys newKeys⟩
        if dryRun then (tr₁ ++ tr₂ ++ tr₃, Except.ok (app, result))
        else
          (tr₁ ++ tr₂ ++ tr₃ ++ [Event.dbSave],
           Except.ok ({ manifest := newSchema, userInputs := userInputs,
                        templateId := template.id }, result))

end ApplicationManager

/-- Counterexample for C2: upgrading an application whose single release
`api` is in the `to_update` set, with a chart backend whose `update_release`
raises: contrary to the claim, the `HelmException` propagates out of
`upgrade` to the caller — the update loop has no surrounding `try`. -/
theorem upgrade_update_failure_counterexample :
    (ApplicationManager.upgrade
      ⟨fun _ => true, fun _ => false, fun _ => true⟩
      ⟨⟨"app", [⟨"api", "repo/api", "1.0.0", []⟩], []⟩, [], 1⟩
      ⟨2, []⟩
      (fun _ => ⟨"app", [⟨"api", "repo/api", "1.1.0", []⟩], []⟩) false).2 =
      Except.error AppError.helm := by
  rfl

theorem lookup_isSome_of_mem_keysOf (m : List (String × ChartSchema)) (r : String)
    (h : r ∈ keysOf m) : ∃ c, m.lookup r = some c := by
  induction m with
  | nil => simp [keysOf] at h
  | cons p m ih =>
    obtain ⟨k, c⟩ := p
    by_cases hrk : r = k
    · subst hrk
      exact ⟨c, by simp [List.lookup_cons]⟩
    · have hbeq : (r == k) = false := by simp [hrk]
      have h' : r ∈ keysOf m := by
        simp only [keysOf, List.map_cons, List.mem_cons] at h
        tauto
      obtain ⟨c', hc'⟩ := ih h'
      exact ⟨c', by simp [List.lookup_cons, hbeq, hc']⟩

theorem upgradeInstallLoop_ok (o : HelmOracle) (mapping : List (String × ChartSchema))
    (dryRun : Bool) (installed : List ChartSchema) (rs : List String)
    (h : ∀ r ∈ rs, ∃ c, mapping.lookup r = some c ∧ o.installOk c.name = true) :
    ∃ results, ApplicationManager.upgradeInstallLoop o mapping dryRun installed rs =
      (rs.filterMap (fun r => (mapping.lookup r).map (installEv dryRun)),
       Except.ok results) := by
  induction rs generalizing installed with
  | nil => exact ⟨[], rfl⟩
  | cons r rest ih =>
    obtain ⟨c, hc, hok⟩ := h r (by simp)
    obtain ⟨results, hres⟩ := ih (installed ++ [c]) (fun r' hr' => h r' (by simp [hr']))
    refine ⟨c.name :: results, ?_⟩
    simp only [ApplicationManager.upgradeInstallLoop, hc, helmInstall, hok, if_true,
      List.filterMap_cons, hres]
    simp [installEv]

theorem upgradeUpdateLoop_fail (o : HelmOracle) (mapping : List (String × ChartSchema))
    (dryRun : Bool) (upre upost : List String) (rfail : String) (cf : ChartSchema)
    (hupre : ∀ r ∈ upre, ∃ c, mapping.lookup r = some c ∧ o.updateOk r = true)
    (hcf : mapping.lookup rfail = some cf)
    (hrfail : o.updateOk rfail = false) :
    ∃ tr, ApplicationManager.upgradeUpdateLoop o mapping dryRun (upre ++ rfail :: upost) =
      (tr, Except.error AppError.helm) ∧ tr.all Event.isUpdate = true ∧
      tr.length = upre.length + 1 := by
  induction upre with
  | nil =>
    refine ⟨[Event.updateRelease rfail cf.chart cf.values dryRun], ?_, by rfl, by rfl⟩
    simp only [List.nil_append, ApplicationManager.upgradeUpdateLoop, hcf, helmUpdate,
      hrfail, if_false, Bool.false_eq_true]
  | cons r rest ih =>
    obtain ⟨c, hc, hok⟩ := hupre r (by simp)
    obtain ⟨tr, htr, hall, hlen⟩ := ih (fun r' hr' => hupre r' (by simp [hr']))
    refine ⟨Event.updateRelease r c.chart c.values dryRun :: tr, ?_, ?_, by simp [hlen]⟩
    · simp only [List.cons_append, ApplicationManager.upgradeUpdateLoop, hc, helmUpdate,
        hok, if_true, List.append_eq, htr]
      simp
    · simp only [List.all_cons, hall, Bool.and_true]
      rfl

theorem filterMap_installEv_all (mapping : List (String × ChartSchema)) (d : Bool)
    (rs : List String) :
    (rs.filterMap (fun r => (mapping.lookup r).map (installEv d))).all
      Event.isInstall = true := by
  rw [List.all_eq_true]
  intro e he
  rcases List.mem_filterMap.mp he with ⟨r, _, hr⟩
  rcases Option.map_eq_some'.mp hr with ⟨c, _, hc⟩
  subst hc
  rfl

theorem filter_eq_nil_of_all {l : List Event} {p q : Event → Bool}
    (hall : l.all p = true) (h : ∀ e, p e = true → q e = false) :
    l.filter q = [] := by
  rw [List.filter_eq_nil_iff]
  intro e he
  have hq := h e (List.all_eq_true.mp hall e he)
  simp [hq]

/-- C2 amended: in a non-dry-run `upgrade` in which every install succeeds
and the `releases_to_update` loop hits a release whose `update_release`
raises (all updates before it succeeding), the failure IS fatal to the call:
the `HelmException` propagates to the caller, the remaining update and
remove calls are skipped, no rollback uninstall is issued for any release,
and the Application record is not saved (no database event at all). The
only part of the original claim that survives is that no rollback is
performed for the failed update. -/
theorem upgrade_update_failure_fatal (o : HelmOracle) (app : ApplicationRec)
    (template : TemplateRev) (render : InputsMap → ManifestSchema)
    (upre upost : List String) (rfail : String)
    (hinstall : ∀ s, o.installOk s = true)
    (hdecomp : releasesToUpdate (keysOf app.manifest.chartMapping)
        (keysOf (render (upgradeMergedInputs template app)).chartMapping) =
        upre ++ rfail :: upost)
    (hupre : ∀ r ∈ upre, o.updateOk r = true)
    (hrfail : o.updateOk rfail = false) :
    (ApplicationManager.upgrade o app template render false).2 =
        Except.error AppError.helm ∧
    (ApplicationManager.upgrade o app template render false).1.filter
        Event.isUninstall = [] ∧
    (ApplicationManager.upgrade o app template render false).1.filter
        Event.isDb = [] ∧
    ((ApplicationManager.upgrade o app template render false).1.filter
        Event.isUpdate).length = upre.length + 1 := by
  set newM := (render (upgradeMergedInputs template app)).chartMapping with hnewM
  set oldKeys := keysOf app.manifest.chartMapping with holdKeys
  have hmemNew : ∀ r ∈ upre ++ rfail :: upost, r ∈ keysOf newM := by
    intro r hr
    have hmem : r ∈ releasesToUpdate oldKeys (keysOf newM) := by
      rw [hdecomp]
      exact hr
    have := (List.mem_filter.mp hmem).2
    exact of_decide_eq_true this
  obtain ⟨resI, hI⟩ := upgradeInstallLoop_ok o newM false []
    (chartsToInstall oldKeys (keysOf newM))
    (by
      intro r hr
      have hrk : r ∈ keysOf newM := (List.mem_filter.mp hr).1
      obtain ⟨c, hc⟩ := lookup_isSome_of_mem_keysOf newM r hrk
      exact ⟨c, hc, hinstall c.name⟩)
  obtain ⟨cf, hcf⟩ := lookup_isSome_of_mem_keysOf newM rfail
    (hmemNew rfail (by simp))
  obtain ⟨trU, hU, hallU, hlenU⟩ := upgradeUpdateLoop_fail o newM false upre upost rfail cf
    (by
      intro r hr
      obtain ⟨c, hc⟩ := lookup_isSome_of_mem_keysOf newM r (hmemNew r (by simp [hr]))
      exact ⟨c, hc, hupre r hr⟩)
    hcf hrfail
  have hmain : ApplicationManager.upgrade o app template render false =
      ((chartsToInstall oldKeys (keysOf newM)).filterMap
         (fun r => (newM.lookup r).map (installEv false)) ++ trU,
       Except.error AppError.helm) := by
    simp only [ApplicationManager.upgrade]
    rw [← hnewM, ← holdKeys, hI, hdecomp, hU]
  have hInstNotUninstall : ∀ e, Event.isInstall e = true → Event.isUninstall e = false := by
    intro e he
    cases e <;> simp_all [Event.isInstall, Event.isUninstall]
  have hInstNotDb : ∀ e, Event.isInstall e = true → Event.isDb e = false := by
    intro e he
    cases e <;> simp_all [Event.isInstall, Event.isDb]
  have hInstNotUpdate : ∀ e, Event.isInstall e = true → Event.isUpdate e = false := by
    intro e he
    cases e <;> simp_all [Event.isInstall, Event.isUpdate]
  have hUpdNotUninstall : ∀ e, Event.isUpdate e = true → Event.isUninstall e = false := by
    intro e he
    cases e <;> simp_all [Event.isUpdate, Event.isUninstall]
  have hUpdNotDb : ∀ e, Event.isUpdate e = true → Event.isDb e = false := by
    intro e he
    cases e <;> simp_all [Event.isUpdate, Event.isDb]
  have hallI := filterMap_installEv_all newM false (chartsToInstall oldKeys (keysOf newM))
  refine ⟨by rw [hmain], ?_, ?_, ?_⟩
  · rw [hmain]
    simp only [List.filter_append]
    rw [filter_eq_nil_of_all hallI hInstNotUninstall,
      filter_eq_nil_of_all hallU hUpdNotUninstall]
    rfl
  · rw [hmain]
    simp only [List.filter_append]
    rw [filter_eq_nil_of_all hallI hInstNotDb, filter_eq_nil_of_all hallU hUpdNotDb]
    rfl
  · rw [hmain]
    simp only [List.filter_append]
    rw [filter_eq_nil_of_all hallI hInstNotUpdate]
    rw [List.filter_eq_self.mpr (fun e he => List.all_eq_true.mp hallU e he)]
    simpa using hlenU

/-- Witness for C2 amended: the concrete single-release upgrade above — the
update call fails, the error propagates, and the trace holds exactly one
update call and nothing else. -/
theorem upgrade_update_failure_fatal_witness :
    (ApplicationManager.upgrade
      ⟨fun _ => true, fun _ => false, fun _ => true⟩
      ⟨⟨"app", [⟨"api", "repo/api", "1.0.0", []⟩], []⟩, [], 1⟩
      ⟨2, []⟩
      (fun _ => ⟨"app", [⟨"api", "repo/api", "1.1.0", []⟩], []⟩) false).2 =
        Except.error AppError.helm ∧
    ((ApplicationManager.upgrade
      ⟨fun _ => true, fun _ => false, fun _ => true⟩
      ⟨⟨"app", [⟨"api", "repo/api", "1.0.0", []⟩], []⟩, [], 1⟩
      ⟨2, []⟩
      (fun _ => ⟨"app", [⟨"api", "repo/api", "1.1.0", []⟩], []⟩) false).1.filter
        Event.isUpdate).length = 1 := by
  have h := upgrade_update_failure_fatal
    ⟨fun _ => true, fun _ => false, fun _ => true⟩
    ⟨⟨"app", [⟨"api", "repo/api", "1.0.0", []⟩], []⟩, [], 1⟩
    ⟨2, []⟩
    (fun _ => ⟨"app", [⟨"api", "repo/api", "1.1.0", []⟩], []⟩)
    [] [] "api"
    (fun _ => rfl)
    (by rfl)
    (by intro r hr; simp at hr)
    (by rfl)
  exact ⟨h.1, h.2.2.2⟩

/-- Python `dict.keys() != dict.keys()` compares Python dict key views as sets;
`sameKeySet a b = true` iff the two key lists have the same members. -/
def sameKeySet (a b : List String) : Bool :=
  a.all (fun k => decide (k ∈ b)) && b.all (fun k => decide (k ∈ a))

/-- Embeds `update_user_inputs` line 216: the names flagged immutable in the old
manifest's input mapping, in mapping order. -/
def immutableNames (m : ManifestSchema) : List String :=
  (m.inputsMapping.filter (fun p => p.2.immutable)).map Prod.fst

/-- Embeds `update_user_inputs` lines 217-220: walk the immutable input names and
collect those whose new value differs from the stored value, in order. A
subscript on a name absent from either dict raises `KeyError`. -/
def collectViolating (inputs old : InputsMap) : List String → Except AppError (List String)
  | [] => Except.ok []
  | n :: rest =>
    match inputs.lookup n, old.lookup n with
    | some v, some w =>
      (fun names => if v ≠ w then n :: names else names) <$> collectViolating inputs old rest
    | _, _ => Except.error AppError.keyError

namespace ApplicationManager

/-- Embeds `update_user_inputs` lines 238-248: `update_release` for every
`(release_name, chart)` item of the new chart mapping, in mapping order,
with no surrounding `try` — a `HelmException` propagates immediately. -/
def updateAllLoop (o : HelmOracle) (dryRun : Bool) :
    List (String × ChartSchema) → List Event × Except AppError (List String)
  | [] => ([], Except.ok [])
  | (r, c) :: rest =>
    let (ev, res) := helmUpdate o r c dryRun
    match res with
    | Except.error e => (ev, Except.error e)
    | Except.ok _ =>
      let (tr, rres) := updateAllLoop o dryRun rest
      (ev ++ tr, (fun names => r :: names) <$> rres)

/-- Embeds `ApplicationManager.update_user_inputs`, lines 205-254: validate the new
inputs against the template (external `validate_inputs`, modelled by
`validateOk`), require the new and stored input key sets to be equal,
require every immutable input to keep its stored value (collecting all
violators into one `InvalidUserInputsException`), render the template with
the new inputs (external `render`), note — but do not raise — a
`CommonException` when the new mapping lost release names of the old one
(lines 230-236 construct the exception without `raise`), update every
release of the new mapping, and, on success and not dry-run, overwrite only
the record's manifest and save it. -/
def update_user_inputs (o : HelmOracle) (validateOk : Bool)
    (render : InputsMap → ManifestSchema) (app : ApplicationRec)
    (inputs : InputsMap) (dryRun : Bool) :
    List Event × Except AppError (ApplicationRec × List String) :=
  if !validateOk then ([], Except.error AppError.validationFailed)
  else if !(sameKeySet (keysOfInputs inputs) (keysOfInputs app.userInputs)) then
    ([], Except.error AppError.invalidKeySet)
  else
    match collectViolating inputs app.userInputs (immutableNames app.manifest) with
    | Except.error e => ([], Except.error e)
    | Except.ok violating =>
      if !violating.isEmpty then ([], Except.error (AppError.immutableViolation violating))
      else
        let newSchema := render inputs
        let absent := (keysOf app.manifest.chartMapping).filter
          (fun r => !(decide (r ∈ keysOf newSchema.chartMapping)))
        -- `CommonException(...)` is constructed here when `absent` is
        -- nonempty but never raised (no `raise` on line 232); control
        -- falls through to the update loop regardless.
        let _ := absent
        match updateAllLoop o dryRun newSchema.chartMapping with
        | (tr, Except.error e) => (tr, Except.error e)
        | (tr, Except.ok results) =>
          if dryRun then (tr, Except.ok (app, results))
          else (tr ++ [Event.dbSave],
                Except.ok ({ app with manifest := newSchema }, results))

end ApplicationManager

theorem collectViolating_ok (inputs old : InputsMap) (names : List String)
    (h : ∀ n ∈ names, (inputs.lookup n).isSome ∧ (old.lookup n).isSome) :
    collectViolating inputs old names =
      Except.ok (names.filter (fun n => decide (inputs.lookup n ≠ old.lookup n))) := by
  induction names with
  | nil => rfl
  | cons n rest ih =>
    obtain ⟨h1, h2⟩ := h n (by simp)
    obtain ⟨v, hv⟩ := Option.isSome_iff_exists.mp h1
    obtain ⟨w, hw⟩ := Option.isSome_iff_exists.mp h2
    rw [List.filter_cons]
    simp only [collectViolating, hv, hw, ih (fun m hm => h m (by simp [hm]))]
    by_cases hvw : v = w
    · subst hvw
      simp
    · simp [hvw, hv, hw]

/-- C6: `update_user_inputs` rejects, with no chart-backend call issued
(empty trace): (a) with `invalidKeySet` whenever the new input key set
differs from the stored one; (b) with one `immutableViolation` listing all
(not just the first) immutable inputs whose new value differs from the
stored value, whenever that list is nonempty (given schema validation passes
and the immutable names are present in both input maps). -/
theorem update_user_inputs_validation (o : HelmOracle)
    (render : InputsMap → ManifestSchema) (app : ApplicationRec)
    (inputs : InputsMap) (dryRun : Bool)
    (hcover : ∀ n ∈ immutableNames app.manifest,
        (inputs.lookup n).isSome ∧ (app.userInputs.lookup n).isSome) :
    (sameKeySet (keysOfInputs inputs) (keysOfInputs app.userInputs) = false →
      ApplicationManager.update_user_inputs o true render app inputs dryRun =
        ([], Except.error AppError.invalidKeySet)) ∧
    (sameKeySet (keysOfInputs inputs) (keysOfInputs app.userInputs) = true →
      (immutableNames app.manifest).filter
          (fun n => decide (inputs.lookup n ≠ app.userInputs.lookup n)) ≠ [] →
      ApplicationManager.update_user_inputs o true render app inputs dryRun =
        ([], Except.error (AppError.immutableViolation
          ((immutableNames app.manifest).filter
            (fun n => decide (inputs.lookup n ≠ app.userInputs.lookup n)))))) := by
  constructor
  · intro hkeys
    simp [ApplicationManager.update_user_inputs, hkeys]
  · intro hkeys hvne
    have hcv := collectViolating_ok inputs app.userInputs (immutableNames app.manifest) hcover
    have hie : ((immutableNames app.manifest).filter
        (fun n => decide (inputs.lookup n ≠ app.userInputs.lookup n))).isEmpty = false := by
      cases hfe : (immutableNames app.manifest).filter
          (fun n => decide (inputs.lookup n ≠ app.userInputs.lookup n)) with
      | nil => exact absurd hfe hvne
      | cons a l => rfl
    simp only [ApplicationManager.update_user_inputs, hkeys, hcv, hie, Bool.not_true,
      Bool.not_false, Bool.false_eq_true, if_false, if_true, ite_true, ite_false]

/-- Witness for C6: an application storing `region = us-east` (immutable)
and `replicas = 2`; (a) submitting only `region` is rejected for the key-set
mismatch; (b) changing immutable `region` (and mutable `replicas`) is
rejected listing `region`; both with an empty trace. -/
theorem update_user_inputs_validation_witness :
    ApplicationManager.update_user_inputs
      ⟨fun _ => true, fun _ => true, fun _ => true⟩ true
      (fun _ => ⟨"app", [], []⟩)
      ⟨⟨"app", [], [⟨"region", none, true⟩, ⟨"replicas", none, false⟩]⟩,
       [("region", "us-east"), ("replicas", "2")], 4⟩
      [("region", "us-west")] false =
      ([], Except.error AppError.invalidKeySet) ∧
    ApplicationManager.update_user_inputs
      ⟨fun _ => true, fun _ => true, fun _ => true⟩ true
      (fun _ => ⟨"app", [], []⟩)
      ⟨⟨"app", [], [⟨"region", none, true⟩, ⟨"replicas", none, false⟩]⟩,
       [("region", "us-east"), ("replicas", "2")], 4⟩
      [("region", "us-west"), ("replicas", "3")] false =
      ([], Except.error (AppError.immutableViolation ["region"])) := by
  constructor
  · have h := update_user_inputs_validation
      ⟨fun _ => true, fun _ => true, fun _ => true⟩
      (fun _ => ⟨"app", [], []⟩)
      ⟨⟨"app", [], [⟨"region", none, true⟩, ⟨"replicas", none, false⟩]⟩,
       [("region", "us-east"), ("replicas", "2")], 4⟩
      [("region", "us-west")] false
      (by decide)
    exact h.1 (by decide)
  · have h := update_user_inputs_validation
      ⟨fun _ => true, fun _ => true, fun _ => true⟩
      (fun _ => ⟨"app", [], []⟩)
      ⟨⟨"app", [], [⟨"region", none, true⟩, ⟨"replicas", none, false⟩]⟩,
       [("region", "us-east"), ("replicas", "2")], 4⟩
      [("region", "us-west"), ("replicas", "3")] false
      (by decide)
    have h2 := h.2 (by decide) (by decide)
    exact h2

theorem updateAllLoop_ok (o : HelmOracle) (dryRun : Bool)
    (mapping : List (String × ChartSchema))
    (h : ∀ p ∈ mapping, o.updateOk p.1 = true) :
    ApplicationManager.updateAllLoop o dryRun mapping =
      (mapping.map (fun p => Event.updateRelease p.1 p.2.chart p.2.values dryRun),
       Except.ok (mapping.map Prod.fst)) := by
  induction mapping with
  | nil => rfl
  | cons p rest ih =>
    obtain ⟨r, c⟩ := p
    have hr : o.updateOk r = true := h (r, c) (by simp)
    simp only [ApplicationManager.updateAllLoop, helmUpdate, hr, if_true,
      ih (fun q hq => h q (by simp [hq])), List.map_cons]
    simp

/-- C7: when the chart mapping rendered from the new inputs is missing
release names of the old manifest's mapping (`absent` nonempty), a
non-dry-run `update_user_inputs` does not raise: the `CommonException` is
constructed but not raised (no `raise` statement), and an update call is
issued for every release of the new mapping, after which the record is saved
as usual. -/
theorem update_user_inputs_missing_releases_ignored (o : HelmOracle)
    (render : InputsMap → ManifestSchema) (app : ApplicationRec)
    (inputs : InputsMap)
    (hkeys : sameKeySet (keysOfInputs inputs) (keysOfInputs app.userInputs) = true)
    (hviol : collectViolating inputs app.userInputs (immutableNames app.manifest) =
        Except.ok [])
    (habsent : (keysOf app.manifest.chartMapping).filter
        (fun r => !(decide (r ∈ keysOf (render inputs).chartMapping))) ≠ [])
    (hupd : ∀ p ∈ (render inputs).chartMapping, o.updateOk p.1 = true) :
    ApplicationManager.update_user_inputs o true render app inputs false =
      ((render inputs).chartMapping.map
          (fun p => Event.updateRelease p.1 p.2.chart p.2.values false) ++ [Event.dbSave],
       Except.ok ({ app with manifest := render inputs },
                  (render inputs).chartMapping.map Prod.fst)) := by
  simp [ApplicationManager.update_user_inputs, hkeys, hviol,
    updateAllLoop_ok o false (render inputs).chartMapping hupd]

/-- Witness for C7: the old manifest declares releases `a` and `b`, the new
rendering keeps only `a`; the call still succeeds and updates `a`. -/
theorem update_user_inputs_missing_releases_ignored_witness :
    ApplicationManager.update_user_inputs
      ⟨fun _ => true, fun _ => true, fun _ => true⟩ true
      (fun _ => ⟨"app", [⟨"a", "repo/a", "1.0.0", []⟩], []⟩)
      ⟨⟨"app", [⟨"a", "repo/a", "1.0.0", []⟩, ⟨"b", "repo/b", "1.0.0", []⟩], []⟩,
       [("x", "1")], 9⟩
      [("x", "2")] false =
      ([Event.updateRelease "a" "repo/a" [] false, Event.dbSave],
       Except.ok (⟨⟨"app", [⟨"a", "repo/a", "1.0.0", []⟩], []⟩, [("x", "1")], 9⟩,
                  ["a"])) := by
  have h := update_user_inputs_missing_releases_ignored
    ⟨fun _ => true, fun _ => true, fun _ => true⟩
    (fun _ => ⟨"app", [⟨"a", "repo/a", "1.0.0", []⟩], []⟩)
    ⟨⟨"app", [⟨"a", "repo/a", "1.0.0", []⟩, ⟨"b", "repo/b", "1.0.0", []⟩], []⟩,
     [("x", "1")], 9⟩
    [("x", "2")]
    (by decide) (by rfl) (by decide) (by decide)
  simpa [ManifestSchema.chartMapping] using h

/-- C10: a successful non-dry-run `update_user_inputs` changes only the
record's manifest (set to the newly rendered one): the stored user inputs
and the template reference keep their prior values — so a subsequent
`update_user_inputs` runs its key-set and immutability checks against the
original stored inputs, not the values most recently applied. -/
theorem update_user_inputs_manifest_only_frame (o : HelmOracle) (validateOk : Bool)
    (render : InputsMap → ManifestSchema) (app : ApplicationRec)
    (inputs : InputsMap) (tr : List Event) (app' : ApplicationRec)
    (results : List String)
    (h : ApplicationManager.update_user_inputs o validateOk render app inputs false =
        (tr, Except.ok (app', results))) :
    app'.manifest = render inputs ∧ app'.userInputs = app.userInputs ∧
    app'.templateId = app.templateId := by
  simp only [ApplicationManager.update_user_inputs] at h
  split at h
  · simp at h
  · split at h
    · simp at h
    · split at h
      · simp at h
      · split at h
        · simp at h
        · split at h
          · simp at h
          · rename_i heq
            simp only [Bool.false_eq_true, if_false] at h
            rw [Prod.mk.injEq] at h
            obtain ⟨htr, hok⟩ := h
            injection hok with hok
            rw [Prod.mk.injEq] at hok
            obtain ⟨happ, hres⟩ := hok
            subst happ
            simp

/-- Embeds `terminate` lines 261-274: `uninstall_release` for every declared chart
of the stored manifest, in manifest order; a `HelmException` is logged and
swallowed (`pass`), so the remaining charts are still attempted. -/
def terminateLoop (o : HelmOracle) : List ChartSchema → List Event
  | [] => []
  | c :: rest =>
    let (ev, res) := helmUninstall o c.name none
    match res with
    | Except.ok _ => ev ++ terminateLoop o rest
    | Except.error _ => ev ++ terminateLoop o rest

namespace ApplicationManager

/-- Embeds `ApplicationManager.terminate`, lines 256-275: best-effort uninstall of
every declared chart, then unconditional deletion of the Application record
(`self.db.delete`). -/
def terminate (o : HelmOracle) (app : ApplicationRec) : List Event :=
  terminateLoop o app.manifest.charts ++ [Event.dbDelete]

end ApplicationManager

theorem terminateLoop_eq_map (o : HelmOracle) (cs : List ChartSchema) :
    terminateLoop o cs = cs.map (fun c => Event.uninstallRelease c.name none) := by
  induction cs with
  | nil => rfl
  | cons c rest ih =>
    simp only [terminateLoop, helmUninstall]
    split <;> simp [ih]

/-- C9: for every chart-backend oracle — so no matter which individual
uninstalls fail, each failure being logged and swallowed with the later
uninstalls still attempted — `terminate` issues exactly one uninstall call
per chart declared in the stored manifest, in manifest order, and then
deletes the Application record unconditionally. -/
theorem terminate_best_effort (o : HelmOracle) (app : ApplicationRec) :
    ApplicationManager.terminate o app =
      app.manifest.charts.map (fun c => Event.uninstallRelease c.name none) ++
        [Event.dbDelete] := by
  rw [ApplicationManager.terminate, terminateLoop_eq_map]

theorem installCharts_dry_all (o : HelmOracle) (installed cs : List ChartSchema) :
    (ApplicationManager.installCharts o true installed cs).1.all
      Event.isDryRunCall = true := by
  induction cs generalizing installed with
  | nil => rfl
  | cons c rest ih =>
    simp only [ApplicationManager.installCharts, helmInstall]
    by_cases hc : o.installOk c.name
    · simp [hc, ih (installed ++ [c]), Event.isDryRunCall]
    · simp [hc, Event.isDryRunCall]

theorem install_dry_all (o : HelmOracle) (charts : List ChartSchema) :
    (ApplicationManager.install o charts true).1.all Event.isDryRunCall = true := by
  rcases hc : ApplicationManager.installCharts o true [] charts with ⟨tr0, r0⟩
  have hall := installCharts_dry_all o [] charts
  rw [hc] at hall
  cases r0 <;> simp [ApplicationManager.install, hc, hall]

theorem upgradeInstallLoop_dry_all (o : HelmOracle)
    (mapping : List (String × ChartSchema)) (installed : List ChartSchema)
    (rs : List String) :
    (ApplicationManager.upgradeInstallLoop o mapping true installed rs).1.all
      Event.isDryRunCall = true := by
  induction rs generalizing installed with
  | nil => rfl
  | cons r rest ih =>
    simp only [ApplicationManager.upgradeInstallLoop]
    cases hl : mapping.lookup r with
    | none => rfl
    | some c =>
      simp only [helmInstall]
      by_cases hc : o.installOk c.name
      · simp [hc, ih (installed ++ [c]), Event.isDryRunCall]
      · simp [hc, Event.isDryRunCall]

theorem upgradeUpdateLoop_dry_all (o : HelmOracle)
    (mapping : List (String × ChartSchema)) (rs : List String) :
    (ApplicationManager.upgradeUpdateLoop o mapping true rs).1.all
      Event.isDryRunCall = true := by
  induction rs with
  | nil => rfl
  | cons r rest ih =>
    simp only [ApplicationManager.upgradeUpdateLoop]
    cases hl : mapping.lookup r with
    | none => rfl
    | some c =>
      simp only [helmUpdate]
      by_cases hc : o.updateOk r
      · simp [hc, ih, Event.isDryRunCall]
      · simp [hc, Event.isDryRunCall]

theorem upgradeRemoveLoop_dry_all (o : HelmOracle)
    (mapping : List (String × ChartSchema)) (rs : List String) :
    (ApplicationManager.upgradeRemoveLoop o mapping true rs).1.all
      Event.isDryRunCall = true := by
  induction rs with
  | nil => rfl
  | cons r rest ih =>
    simp only [ApplicationManager.upgradeRemoveLoop]
    cases hl : mapping.lookup r with
    | none => rfl
    | some c =>
      simp only [helmUninstall]
      by_cases hc : o.uninstallOk c.name
      · simp [hc, ih, Event.isDryRunCall]
      · simp [hc, ih, Event.isDryRunCall]

theorem upgrade_dry_all (o : HelmOracle) (app : ApplicationRec)
    (template : TemplateRev) (render : InputsMap → ManifestSchema) :
    (ApplicationManager.upgrade o app template render true).1.all
      Event.isDryRunCall = true := by
  simp only [ApplicationManager.upgrade]
  rcases h1 : ApplicationManager.upgradeInstallLoop o
      (render (upgradeMergedInputs template app)).chartMapping true []
      (chartsToInstall (keysOf app.manifest.chartMapping)
        (keysOf (render (upgradeMergedInputs template app)).chartMapping)) with ⟨t1, r1⟩
  have ha1 := upgradeInstallLoop_dry_all o
    (render (upgradeMergedInputs template app)).chartMapping []
    (chartsToInstall (keysOf app.manifest.chartMapping)
      (keysOf (render (upgradeMergedInputs template app)).chartMapping))
  rw [h1] at ha1
  cases r1 with
  | error e => simp [ha1]
  | ok res1 =>
    rcases h2 : ApplicationManager.upgradeUpdateLoop o
        (render (upgradeMergedInputs template app)).chartMapping true
        (releasesToUpdate (keysOf app.manifest.chartMapping)
          (keysOf (render (upgradeMergedInputs template app)).chartMapping)) with ⟨t2, r2⟩
    have ha2 := upgradeUpdateLoop_dry_all o
      (render (upgradeMergedInputs template app)).chartMapping
      (releasesToUpdate (keysOf app.manifest.chartMapping)
        (keysOf (render (upgradeMergedInputs template app)).chartMapping))
    rw [h2] at ha2
    cases r2 with
    | error e => simp [ha1, ha2]
    | ok res2 =>
      rcases h3 : ApplicationManager.upgradeRemoveLoop o
          app.manifest.chartMapping true
          (releasesToRemove (keysOf app.manifest.chartMapping)
            (keysOf (render (upgradeMergedInputs template app)).chartMapping)) with ⟨t3, r3⟩
      have ha3 := upgradeRemoveLoop_dry_all o app.manifest.chartMapping
        (releasesToRemove (keysOf app.manifest.chartMapping)
          (keysOf (render (upgradeMergedInputs template app)).chartMapping))
      rw [h3] at ha3
      cases r3 with
      | error e => simp [ha1, ha2, ha3]
      | ok res3 => simp [ha1, ha2, ha3]

theorem updateAllLoop_dry_all (o : HelmOracle) (mapping : List (String × ChartSchema)) :
    (ApplicationManager.updateAllLoop o true mapping).1.all Event.isDryRunCall = true := by
  induction mapping with
  | nil => rfl
  | cons p rest ih =>
    obtain ⟨r, c⟩ := p
    simp only [ApplicationManager.updateAllLoop, helmUpdate]
    by_cases hr : o.updateOk r
    · simp [hr, ih, Event.isDryRunCall]
    · simp [hr, Event.isDryRunCall]

theorem update_user_inputs_dry_all (o : HelmOracle) (validateOk : Bool)
    (render : InputsMap → ManifestSchema) (app : ApplicationRec)
    (inputs : InputsMap) :
    (ApplicationManager.update_user_inputs o validateOk render app inputs true).1.all
      Event.isDryRunCall = true := by
  simp only [ApplicationManager.update_user_inputs]
  split
  · rfl
  · split
    · rfl
    · split
      · rfl
      · split
        · rfl
        · rcases hu : ApplicationManager.updateAllLoop o true
              (render inputs).chartMapping with ⟨t, r⟩
          have hall := updateAllLoop_dry_all o (render inputs).chartMapping
          rw [hu] at hall
          cases r <;> simp [hall]

theorem filter_db_nil_of_all_dry {l : List Event}
    (h : l.all Event.isDryRunCall = true) : l.filter Event.isDb = [] :=
  filter_eq_nil_of_all h
    (fun e he => by cases e <;> simp_all [Event.isDryRunCall, Event.isDb])

/-- C8: for every successful dry-run `install`, `upgrade` or
`update_user_inputs`, the trace contains no persistence-store event (no
Application record is created, saved or mutated) while every chart-backend
call in it is issued with the dry-run flag set to true. -/
theorem dry_run_no_persistence :
    (∀ (o : HelmOracle) (charts : List ChartSchema) (tr : List Event)
        (res : Bool × List String),
      ApplicationManager.install o charts true = (tr, Except.ok res) →
        tr.filter Event.isDb = [] ∧ tr.all Event.isDryRunCall = true) ∧
    (∀ (o : HelmOracle) (app : ApplicationRec) (template : TemplateRev)
        (render : InputsMap → ManifestSchema) (tr : List Event)
        (res : ApplicationRec × ApplicationManager.UpgradeResult),
      ApplicationManager.upgrade o app template render true = (tr, Except.ok res) →
        tr.filter Event.isDb = [] ∧ tr.all Event.isDryRunCall = true) ∧
    (∀ (o : HelmOracle) (validateOk : Bool) (render : InputsMap → ManifestSchema)
        (app : ApplicationRec) (inputs : InputsMap) (tr : List Event)
        (res : ApplicationRec × List String),
      ApplicationManager.update_user_inputs o validateOk render app inputs true =
          (tr, Except.ok res) →
        tr.filter Event.isDb = [] ∧ tr.all Event.isDryRunCall = true) := by
  refine ⟨?_, ?_, ?_⟩
  · intro o charts tr res h
    have hall := install_dry_all o charts
    rw [h] at hall
    exact ⟨filter_db_nil_of_all_dry hall, hall⟩
  · intro o app template render tr res h
    have hall := upgrade_dry_all o app template render
    rw [h] at hall
    exact ⟨filter_db_nil_of_all_dry hall, hall⟩
  · intro o validateOk render app inputs tr res h
    have hall := update_user_inputs_dry_all o validateOk render app inputs
    rw [h] at hall
    exact ⟨filter_db_nil_of_all_dry hall, hall⟩

/-- Witness for C8: concrete successful dry-runs of all three operations —
a one-chart install, an upgrade updating one release, and an input update of
one release — each yielding a trace of dry-run chart calls and no database
event. -/
theorem dry_run_no_persistence_witness :
    ([Event.installChart "web" "repo/web" "1.0.0" [] true].filter Event.isDb = [] ∧
     [Event.installChart "web" "repo/web" "1.0.0" [] true].all Event.isDryRunCall = true) ∧
    ([Event.updateRelease "api" "repo/api" [] true].filter Event.isDb = [] ∧
     [Event.updateRelease "api" "repo/api" [] true].all Event.isDryRunCall = true) ∧
    ([Event.updateRelease "a" "repo/a" [] true].filter Event.isDb = [] ∧
     [Event.updateRelease "a" "repo/a" [] true].all Event.isDryRunCall = true) := by
  refine ⟨?_, ?_, ?_⟩
  · exact dry_run_no_persistence.1
      ⟨fun _ => true, fun _ => true, fun _ => true⟩
      [⟨"web", "repo/web", "1.0.0", []⟩]
      [Event.installChart "web" "repo/web" "1.0.0" [] true]
      (false, ["web"]) (by rfl)
  · exact dry_run_no_persistence.2.1
      ⟨fun _ => true, fun _ => true, fun _ => true⟩
      ⟨⟨"app", [⟨"api", "repo/api", "1.0.0", []⟩], []⟩, [], 1⟩
      ⟨2, []⟩
      (fun _ => ⟨"app", [⟨"api", "repo/api", "1.1.0", []⟩], []⟩)
      [Event.updateRelease "api" "repo/api" [] true]
      (⟨⟨"app", [⟨"api", "repo/api", "1.0.0", []⟩], []⟩, [], 1⟩, ⟨[], ["api"], []⟩)
      (by rfl)
  · exact dry_run_no_persistence.2.2
      ⟨fun _ => true, fun _ => true, fun _ => true⟩ true
      (fun _ => ⟨"app", [⟨"a", "repo/a", "1.0.0", []⟩], []⟩)
      ⟨⟨"app", [⟨"a", "repo/a", "1.0.0", []⟩], []⟩, [("x", "1")], 9⟩
      [("x", "2")]
      [Event.updateRelease "a" "repo/a" [] true]
      (⟨⟨"app", [⟨"a", "repo/a", "1.0.0", []⟩], []⟩, [("x", "1")], 9⟩, ["a"])
      (by rfl)

/-- Witness for C10: a concrete successful non-dry-run input update of a
one-chart application; the returned record keeps the stored inputs and
template reference and carries the newly rendered manifest. -/
theorem update_user_inputs_manifest_only_frame_witness :
    (⟨⟨"app", [⟨"web", "repo/web", "1.0.0", [("region", "us")]⟩],
       [⟨"region", none, true⟩]⟩, [("region", "us")], 5⟩ : ApplicationRec).manifest =
      (fun ins => (⟨"app", [⟨"web", "repo/web", "1.0.0", ins⟩],
        [⟨"region", none, true⟩]⟩ : ManifestSchema)) [("region", "us")] ∧
    (⟨⟨"app", [⟨"web", "repo/web", "1.0.0", [("region", "us")]⟩],
       [⟨"region", none, true⟩]⟩, [("region", "us")], 5⟩ : ApplicationRec).userInputs =
      [("region", "us")] ∧
    (⟨⟨"app", [⟨"web", "repo/web", "1.0.0", [("region", "us")]⟩],
       [⟨"region", none, true⟩]⟩, [("region", "us")], 5⟩ : ApplicationRec).templateId = 5 :=
  update_user_inputs_manifest_only_frame
    ⟨fun _ => true, fun _ => true, fun _ => true⟩ true
    (fun ins => ⟨"app", [⟨"web", "repo/web", "1.0.0", ins⟩], [⟨"region", none, true⟩]⟩)
    ⟨⟨"app", [⟨"web", "repo/web", "1.0.0", [("region", "us")]⟩],
      [⟨"region", none, true⟩]⟩, [("region", "us")], 5⟩
    [("region", "us")]
    [Event.updateRelease "web" "repo/web" [("region", "us")] false, Event.dbSave]
    ⟨⟨"app", [⟨"web", "repo/web", "1.0.0", [("region", "us")]⟩],
      [⟨"region", none, true⟩]⟩, [("region", "us")], 5⟩
    ["web"]
    (by rfl)
